import Mathlib

/-!
# Verification of the mlab runner core

Shallow embedding of the runner's admission control, path translation,
environment lifecycle and result harvesting (from `runner/__main__.py` and
`runner/cog.py`), together with theorems settling the specification claims.

Conventions: the persisted worker-slot counter (the integer stored in
`worker_count.pkl`; `save_worker_count` / `load_worker_count` are the
identity on it) is a Lean `Int`, since Python integers are unbounded and
the stored value can go negative; filesystem
paths are `List Char`; the persisted pickle file and the directory tree are
modelled as explicit state values threaded through the functions.
-/

namespace Runner

/-- Error raised by `check_worker_count`
(`RunnerException("Not enough workers to create a task environment")`). -/
inductive RunnerError where
  | admissionDenied
  | setupFailed
deriving DecidableEq, Repr

/-- `Runner.check_worker_count`: loads the stored count and raises
`RunnerException` when it is `< 0`; otherwise returns `True`.
(Note the source tests `worker_count < 0`, not `<= 0`.) -/
def check_worker_count (c : Int) : Except RunnerError Bool :=
  if c < 0 then .error .admissionDenied else .ok true

/-- `Runner.decrement_worker_count`: load, subtract one, save. -/
def decrement_worker_count (c : Int) : Int := c - 1

/-- `Runner.increment_worker_count`: load, add one, save. -/
def increment_worker_count (c : Int) : Int := c + 1

/-- The admission step of `Runner.run_task` (lines 105-106):
`check_worker_count()` followed by `decrement_worker_count()`.  When the
check raises, the exception propagates before the decrement, so the stored
count is unchanged; otherwise the stored count is decremented. -/
def acquire (c : Int) : Except RunnerError Int :=
  match check_worker_count c with
  | .error e => .error e
  | .ok _ => .ok (decrement_worker_count c)

/-- The release step (`Runner.increment_worker_count`, called at the end of
`run_task`). -/
def release (c : Int) : Int := increment_worker_count c

/-- One request in a sequence of admission operations. -/
inductive SlotOp where
  | acquireOp
  | releaseOp
deriving DecidableEq, Repr

/-- Effect of one request on the stored count: a rejected `acquire`
propagates its exception to that caller and leaves the stored count
unchanged; subsequent requests still run. -/
def slotStep (c : Int) (op : SlotOp) : Int :=
  match op with
  | .acquireOp => match acquire c with | .error _ => c | .ok c2 => c2
  | .releaseOp => release c

/-- Stored count after a sequence of requests. -/
def runSlotOps (c : Int) (ops : List SlotOp) : Int :=
  ops.foldl slotStep c

/-- `Runner.create_task_environment`: `check_worker_count()` (raises when
the stored count is `< 0`), then `cg.setup(...)` (whose success is the
`setupOk` oracle), then `increment_worker_count()`.  The returned state is
the stored count after the request. -/
def create_task_environment (c : Int) (setupOk : Bool) :
    Except RunnerError Int :=
  match check_worker_count c with
  | .error e => .error e
  | .ok _ =>
    if setupOk then .ok (increment_worker_count c) else .error .setupFailed

/-! ## String primitives used by the source

`pySplit` embeds Python's `str.split(sep)` (for a one-character separator)
and `replaceAll` embeds Python's `str.replace(old, new)`: every
non-overlapping occurrence is replaced, scanning left to right, and the
replacement text is not rescanned.  With an empty pattern Python
interleaves the replacement around every character. -/

/-- Python `s.split(sep)` for a single-character separator. -/
def pySplit (sep : Char) : List Char → List (List Char)
  | [] => [[]]
  | x :: xs =>
    match pySplit sep xs with
    | [] => [[]]
    | h :: t => if x = sep then [] :: h :: t else (x :: h) :: t

/-- The substring after the final occurrence of `sep` (the whole string
when `sep` does not occur).  This is the specification's phrase "the
substring after the final `.`", used to compare with the code's
`key.split(".")[-1]`. -/
def lastSegment (sep : Char) : List Char → List Char
  | [] => []
  | x :: xs =>
    if sep ∈ xs then lastSegment sep xs
    else if x = sep then xs else x :: xs

/-- Last element of a list of segments (`[-1]` in Python; `str.split`
always returns a nonempty list, so the empty default is never used). -/
def lastOf : List (List Char) → List Char
  | [] => []
  | [a] => a
  | _ :: b :: t => lastOf (b :: t)

/-- Worker for `replaceAll` on a nonempty pattern `p :: ps`. -/
def replaceAllAux (p : Char) (ps rep : List Char) : List Char → List Char
  | [] => []
  | x :: xs =>
    if (p :: ps).isPrefixOf (x :: xs) then
      rep ++ replaceAllAux p ps rep (xs.drop ps.length)
    else x :: replaceAllAux p ps rep xs
termination_by s => s.length
decreasing_by
  · simp only [List.length_drop, List.length_cons]; omega
  · simp only [List.length_cons]; omega

/-- Python `s.replace(pat, rep)`. -/
def replaceAll (pat rep s : List Char) : List Char :=
  match pat with
  | [] => rep ++ s.flatMap (fun c => c :: rep)
  | p :: ps => replaceAllAux p ps rep s

/-- `cog.change2_local_dir`:
`base_dir.replace(settings.server_base_dir, settings.results_dir)`.
The two configuration strings are parameters (the settings module is
external configuration). -/
def change2_local_dir (serverBase resultsRoot p : List Char) : List Char :=
  replaceAll serverBase resultsRoot p

/-- `cog.replace_source_with_destination`:
`at.replace(base_dir, settings.cog_base_dir)`. -/
def replace_source_with_destination (cogBase p baseDir : List Char) : List Char :=
  replaceAll baseDir cogBase p

/-! ## Base64

Embedding of `base64.b64decode` (strict alphabet, `=` padding) together
with the matching encoder, used to state what "the base64 of these bytes"
means.  Bytes are `Nat`s below 256. -/

/-- The base64 alphabet in index order. -/
def b64chars : List Char :=
  ['A','B','C','D','E','F','G','H','I','J','K','L','M','N','O','P',
   'Q','R','S','T','U','V','W','X','Y','Z',
   'a','b','c','d','e','f','g','h','i','j','k','l','m','n','o','p',
   'q','r','s','t','u','v','w','x','y','z',
   '0','1','2','3','4','5','6','7','8','9','+','/']

/-- Alphabet character of a 6-bit index. -/
def encChar (i : Nat) : Char := b64chars.getD i 'A'

/-- 6-bit value of an alphabet character (`none` outside the alphabet). -/
def b64charVal (c : Char) : Option Nat :=
  if 'A' ≤ c ∧ c ≤ 'Z' then some (c.toNat - 65)
  else if 'a' ≤ c ∧ c ≤ 'z' then some (c.toNat - 97 + 26)
  else if '0' ≤ c ∧ c ≤ '9' then some (c.toNat - 48 + 52)
  else if c = '+' then some 62
  else if c = '/' then some 63
  else none

/-- Standard base64 encoding of a byte list. -/
def b64encode : List Nat → List Char
  | [] => []
  | [a] => [encChar (a / 4), encChar (a % 4 * 16), '=', '=']
  | [a, b] => [encChar (a / 4), encChar (a % 4 * 16 + b / 16), encChar (b % 16 * 4), '=']
  | a :: b :: c :: rest =>
    encChar (a / 4) :: encChar (a % 4 * 16 + b / 16) ::
      encChar (b % 16 * 4 + c / 64) :: encChar (c % 64) :: b64encode rest

/-- `base64.b64decode`: four characters at a time, padding only in the
final quantum; `none` models the `binascii.Error` raised on malformed
input. -/
def b64decode : List Char → Option (List Nat)
  | [] => some []
  | c1 :: c2 :: c3 :: c4 :: rest =>
    match b64charVal c1, b64charVal c2 with
    | some v1, some v2 =>
      if c3 = '=' then
        if c4 = '=' ∧ rest = [] then some [v1 * 4 + v2 / 16] else none
      else
        match b64charVal c3 with
        | some v3 =>
          if c4 = '=' then
            if rest = [] then some [v1 * 4 + v2 / 16, v2 % 16 * 16 + v3 / 4] else none
          else
            match b64charVal c4, b64decode rest with
            | some v4, some bs =>
              some ((v1 * 4 + v2 / 16) :: (v2 % 16 * 16 + v3 / 4) :: (v3 % 4 * 64 + v4) :: bs)
            | _, _ => none
        | none => none
    | _, _ => none
  | _ => none

/-! ## Result documents and the harvested outcome

`cog.fetch_results` opens `success/results.json`, and on
`FileNotFoundError` opens `error/results.json`, returning the parsed
document (or `None` when neither exists).  `Runner.run_task` destructures
the parsed document as a `(status, payload)` pair (`results[0]`,
`status, success = results`), so a result document is modelled as that
pair, with the payload fields the code reads. -/

/-- Payload of a result document: the fields `run_task` reads.  Metric
values are kept as their `str(value)` rendering. -/
structure ResultDoc where
  task_id : List Char
  metrics : List (List Char × List Char)
  files : List (List Char × List Char)
  pkg_name : List Char
  pretrained_model : Option (List Char)
deriving DecidableEq, Repr

/-- `runner_pb2.FileInfo(name=key, extension=key.split(".")[-1])`. -/
structure FileInfo where
  name : List Char
  extension : List Char
deriving DecidableEq, Repr

/-- `runner_pb2.BytesContent(file_size=len(value), buffer=b64decode(value),
info=...)`. -/
structure BytesContent where
  file_size : Nat
  buffer : List Nat
  info : FileInfo
deriving DecidableEq, Repr

/-- `runner_pb2.Metrics(name=key, metric=str(value))`. -/
structure Metrics where
  name : List Char
  metric : List Char
deriving DecidableEq, Repr

/-- `runner_pb2.TaskResult`. An absent `metrics`/`pretrained_model` field
is its protobuf default (`[]` / `none`). -/
structure TaskResult where
  task_id : List Char
  status : List Char
  metrics : List Metrics
  files : List BytesContent
  pkg_name : List Char
  pretrained_model : Option (List Char)
deriving DecidableEq, Repr

/-- One file entry of the terminal result, as built in `run_task`'s loop
over `files.items()`: `info = FileInfo(name=key, extension=
key.split(".")[-1])`, `bytz = base64.b64decode(value)`,
`BytesContent(file_size=len(value), buffer=bytz, info=info)`.  `none`
models the exception `b64decode` raises on malformed content. -/
def mkBytesContent (key value : List Char) : Option BytesContent :=
  (b64decode value).map fun bytz =>
    { file_size := value.length
      buffer := bytz
      info := { name := key, extension := lastOf (pySplit '.' key) } }

/-- The terminal `TaskResult` built by `run_task`'s success branch. -/
def successResult (status : List Char) (doc : ResultDoc) : Option TaskResult :=
  (doc.files.mapM fun kv => mkBytesContent kv.1 kv.2).map fun fls =>
    { task_id := doc.task_id
      status := status
      metrics := doc.metrics.map fun kv => { name := kv.1, metric := kv.2 }
      files := fls
      pkg_name := doc.pkg_name
      pretrained_model := doc.pretrained_model }

/-- The terminal `TaskResult` built by `run_task`'s error branch: no
`metrics` and no `pretrained_model` are set. -/
def errorResult (status : List Char) (doc : ResultDoc) : Option TaskResult :=
  (doc.files.mapM fun kv => mkBytesContent kv.1 kv.2).map fun fls =>
    { task_id := doc.task_id
      status := status
      metrics := []
      files := fls
      pkg_name := doc.pkg_name
      pretrained_model := none }

/-- The execution context's result files: the parsed content of
`success/results.json` and of `error/results.json`, when present. -/
structure CtxFs where
  success : Option (List Char × ResultDoc)
  error : Option (List Char × ResultDoc)
deriving DecidableEq, Repr

/-- `cog.fetch_results`: open the success document and return its parsed
content; on `FileNotFoundError` open the error document; when that also
raises `FileNotFoundError`, return `None`. -/
def fetch_results (fs : CtxFs) : Option (List Char × ResultDoc) :=
  match fs.success with
  | some s => some s
  | none => fs.error

/-- The dispatch of `Runner.run_task` on a harvested `results` value: if
`results is None` only a log line is emitted and no terminal message is
yielded; if `results[0] == "success"` the success `TaskResult` is yielded,
otherwise the error `TaskResult`.  `Except.error` models an exception
escaping the handler (malformed base64).  The call that produces
`results` is modelled separately in `run_task_harvest`. -/
def runTaskTerminal (res : Option (List Char × ResultDoc)) :
    Except Unit (Option TaskResult) :=
  match res with
  | none => .ok none
  | some (status, doc) =>
    if status = "success".toList then
      match successResult status doc with
      | some tr => .ok (some tr)
      | none => .error ()
    else
      match errorResult status doc with
      | some tr => .ok (some tr)
      | none => .error ()

/-- Positional-parameter count of `cog.fetch_results`: its signature is
`def fetch_results(at: str)`, one parameter. -/
def fetch_results_param_count : Nat := 1

/-- Positional-argument count of the harvest call in `Runner.run_task`
(line 114): `cg.fetch_results(request.job_id, request.model.name)` passes
two arguments. -/
def run_task_fetch_args_count : Nat := 2

/-- A Python call binds its arguments before the body runs: when the
argument count does not match the parameter count, `TypeError` is raised
and the function body is never entered. -/
def invokeFetchResults (nArgs : Nat) (fs : CtxFs) :
    Except Unit (Option (List Char × ResultDoc)) :=
  if nArgs = fetch_results_param_count then .ok (fetch_results fs)
  else .error ()

/-- The harvest step of `Runner.run_task` as written: the
`cg.fetch_results(request.job_id, request.model.name)` call with its two
arguments, followed by the dispatch on the returned `results`.  An
exception from the call propagates out of `run_task` before any log line
or terminal message is produced. -/
def run_task_harvest (fs : CtxFs) : Except Unit (Option TaskResult) :=
  match invokeFetchResults run_task_fetch_args_count fs with
  | .error e => .error e
  | .ok res => runTaskTerminal res

/-! ## Job directories and the lifecycle operations

The directory tree is a list of existing paths (`List Char` each).
`os.makedirs(p, exist_ok=True)` adds `p` and its parents; `rm -rf p`
removes `p` and everything below it.  `git.clone_repo(name, to, branch)`
is modelled as materializing a representative content path inside `to`. -/

/-- `cog.job_get_dirs` path computation: `base = results_dir + "/" + job`,
`dataset = base + "/" + dataset_name`, `model = base + "/" + model_name`. -/
def job_get_dirs (resultsRoot jobId datasetName modelName : List Char) :
    List Char × List Char × List Char :=
  let base := resultsRoot ++ '/' :: jobId
  (base, base ++ '/' :: datasetName, base ++ '/' :: modelName)

/-- The `os.makedirs(dataset_path, exist_ok=True)` /
`os.makedirs(model_path, exist_ok=True)` side effect of
`cog.job_get_dirs`: the base, dataset and model directories exist
afterwards. -/
def mkdirsFor (resultsRoot jobId datasetName modelName : List Char)
    (fs : List (List Char)) : List (List Char) :=
  let dirs := job_get_dirs resultsRoot jobId datasetName modelName
  dirs.1 :: dirs.2.1 :: dirs.2.2 :: fs

/-- `rm -rf p`: every path equal to `p` or below `p` is removed. -/
def rm_rf (p : List Char) (fs : List (List Char)) : List (List Char) :=
  fs.filter fun q => !((q == p) || (p ++ ['/']).isPrefixOf q)

/-- `cog.remove`: `job_get_dirs` (which re-creates the directories), then
`rm -rf dataset_path` and `rm -rf model_path`.  The base directory is
never removed.  The Python function always returns `True`. -/
def remove (resultsRoot jobId datasetName modelName : List Char)
    (fs : List (List Char)) : List (List Char) :=
  let dirs := job_get_dirs resultsRoot jobId datasetName modelName
  rm_rf dirs.2.2 (rm_rf dirs.2.1 (mkdirsFor resultsRoot jobId datasetName modelName fs))

/-- Representative path of the content a `git.clone_repo` call materializes
inside its destination directory. -/
def clonedPath (dest : List Char) : List Char := dest ++ '/' :: ".git".toList

/-- `cog.setup`: create the job directories, clone the dataset, clone the
model; on any clone failure call `remove` and then raise.  The two `Bool`
oracles say whether each clone succeeds (the dataset clone runs first, and
the model clone is not attempted when it fails).  `Except.error` carries
the directory tree at the moment the exception is surfaced. -/
def setup (resultsRoot jobId datasetName modelName : List Char)
    (dsOk mOk : Bool) (fs : List (List Char)) :
    Except (List (List Char)) (List (List Char)) :=
  let dirs := job_get_dirs resultsRoot jobId datasetName modelName
  let fs1 := mkdirsFor resultsRoot jobId datasetName modelName fs
  if dsOk then
    let fs2 := clonedPath dirs.2.1 :: fs1
    if mOk then .ok (clonedPath dirs.2.2 :: fs2)
    else .error (remove resultsRoot jobId datasetName modelName fs2)
  else .error (remove resultsRoot jobId datasetName modelName fs1)

/-- One materialization action of `cog.prepare`:
`copyfile(src, dst)` (which is `shutil.copy(src, dst)`) or
`git.fetch(repo, to, branch)`. -/
inductive PrepEffect where
  | copy (src dst : List Char)
  | fetch (repo dest : List Char) (branch : Option (List Char))
deriving DecidableEq, Repr

/-- `cog.prepare`: after `job_get_dirs`, when `dataset_type == 'upload'`
it runs `copyfile(dataset_name, results_dir)`; when
`dataset_type == 'default'` it runs `git.fetch` of the dataset into the
dataset directory; in every case it then runs `git.fetch` of the model
into the model directory.  The value is the list of actions performed. -/
def prepare (resultsRoot jobId datasetName modelName dsType resultsDirArg : List Char)
    (dsBranch mBranch : Option (List Char)) : List PrepEffect :=
  let dirs := job_get_dirs resultsRoot jobId datasetName modelName
  (if dsType = "upload".toList then [PrepEffect.copy datasetName resultsDirArg]
   else if dsType = "default".toList then [PrepEffect.fetch datasetName dirs.2.1 dsBranch]
   else []) ++ [PrepEffect.fetch modelName dirs.2.2 mBranch]

/-! ## Helper lemmas -/

lemma slotStep_ge (c : Int) (op : SlotOp) (h : -1 ≤ c) :
    -1 ≤ slotStep c op := by
  cases op <;>
    simp only [slotStep, acquire, check_worker_count, decrement_worker_count,
      release, increment_worker_count]
  · by_cases hc : c < 0
    · simp [hc]; omega
    · simp [hc]; omega
  · omega

lemma runSlotOps_ge (ops : List SlotOp) (c : Int) (h : -1 ≤ c) :
    -1 ≤ runSlotOps c ops := by
  induction ops generalizing c with
  | nil => exact h
  | cons op ops ih =>
    simpa [runSlotOps, List.foldl_cons] using
      ih (slotStep c op) (slotStep_ge c op h)

lemma b64charVal_encChar : ∀ i < 64, b64charVal (encChar i) = some i := by decide

lemma encChar_ne_pad : ∀ i < 64, encChar i ≠ '=' := by decide

lemma b64_roundtrip_aux : ∀ (n : Nat) (bs : List Nat), bs.length ≤ n →
    (∀ b ∈ bs, b < 256) → b64decode (b64encode bs) = some bs := by
  intro n
  induction n with
  | zero =>
    intro bs hlen _
    have : bs = [] := List.length_eq_zero.mp (Nat.le_zero.mp hlen)
    subst this
    rfl
  | succ n ih =>
    intro bs hlen hb
    match bs with
    | [] => rfl
    | [a] =>
      have ha : a < 256 := hb a (by simp)
      have h1 : b64charVal (encChar (a / 4)) = some (a / 4) :=
        b64charVal_encChar _ (by omega)
      have h2 : b64charVal (encChar (a % 4 * 16)) = some (a % 4 * 16) :=
        b64charVal_encChar _ (by omega)
      simp only [b64encode, b64decode, h1, h2]
      norm_num
      omega
    | [a, b] =>
      have ha : a < 256 := hb a (by simp)
      have hbb : b < 256 := hb b (by simp)
      have h1 : b64charVal (encChar (a / 4)) = some (a / 4) :=
        b64charVal_encChar _ (by omega)
      have h2 : b64charVal (encChar (a % 4 * 16 + b / 16)) = some (a % 4 * 16 + b / 16) :=
        b64charVal_encChar _ (by omega)
      have h3 : b64charVal (encChar (b % 16 * 4)) = some (b % 16 * 4) :=
        b64charVal_encChar _ (by omega)
      have hne3 : encChar (b % 16 * 4) ≠ '=' := encChar_ne_pad _ (by omega)
      simp only [b64encode, b64decode, h1, h2, h3, hne3, if_false]
      norm_num [hne3]
      omega
    | a :: b :: c :: rest =>
      have ha : a < 256 := hb a (by simp)
      have hbb : b < 256 := hb b (by simp)
      have hc : c < 256 := hb c (by simp)
      have h1 : b64charVal (encChar (a / 4)) = some (a / 4) :=
        b64charVal_encChar _ (by omega)
      have h2 : b64charVal (encChar (a % 4 * 16 + b / 16)) = some (a % 4 * 16 + b / 16) :=
        b64charVal_encChar _ (by omega)
      have h3 : b64charVal (encChar (b % 16 * 4 + c / 64)) = some (b % 16 * 4 + c / 64) :=
        b64charVal_encChar _ (by omega)
      have h4 : b64charVal (encChar (c % 64)) = some (c % 64) :=
        b64charVal_encChar _ (by omega)
      have hne3 : encChar (b % 16 * 4 + c / 64) ≠ '=' := encChar_ne_pad _ (by omega)
      have hne4 : encChar (c % 64) ≠ '=' := encChar_ne_pad _ (by omega)
      have hrest : b64decode (b64encode rest) = some rest := by
        apply ih
        · simp at hlen; omega
        · intro x hx; exact hb x (by simp [hx])
      simp only [b64encode, b64decode, h1, h2, h3, h4, hne3, hne4, if_false, hrest]
      norm_num [hne3, hne4]
      refine ⟨by omega, by omega, by omega⟩

lemma b64_roundtrip (bs : List Nat) (hb : ∀ b ∈ bs, b < 256) :
    b64decode (b64encode bs) = some bs :=
  b64_roundtrip_aux bs.length bs le_rfl hb

lemma b64encode_length_aux : ∀ (n : Nat) (bs : List Nat), bs.length ≤ n →
    (b64encode bs).length = 4 * ((bs.length + 2) / 3) := by
  intro n
  induction n with
  | zero =>
    intro bs hlen
    have : bs = [] := List.length_eq_zero.mp (Nat.le_zero.mp hlen)
    subst this; rfl
  | succ n ih =>
    intro bs hlen
    match bs with
    | [] => rfl
    | [a] => simp [b64encode]
    | [a, b] => simp [b64encode]
    | a :: b :: c :: rest =>
      have hrest : (b64encode rest).length = 4 * ((rest.length + 2) / 3) := by
        apply ih; simp at hlen; omega
      simp only [b64encode, List.length_cons, hrest]
      omega

lemma b64encode_length (bs : List Nat) :
    (b64encode bs).length = 4 * ((bs.length + 2) / 3) :=
  b64encode_length_aux bs.length bs le_rfl

lemma pySplit_ne_nil (sep : Char) (s : List Char) : pySplit sep s ≠ [] := by
  cases s with
  | nil => simp [pySplit]
  | cons x xs =>
    simp only [pySplit]
    rcases pySplit sep xs with _ | ⟨ph, pt⟩
    · simp
    · by_cases hx : x = sep <;> simp [hx]

lemma pySplit_of_not_mem (sep : Char) (s : List Char) (h : sep ∉ s) :
    pySplit sep s = [s] := by
  induction s with
  | nil => rfl
  | cons x xs ih =>
    simp only [List.mem_cons, not_or] at h
    simp only [pySplit, ih h.2, if_neg (Ne.symm h.1)]

lemma two_le_pySplit_length (sep : Char) (s : List Char) (h : sep ∈ s) :
    2 ≤ (pySplit sep s).length := by
  induction s with
  | nil => simp at h
  | cons x xs ih =>
    simp only [pySplit]
    cases hps : pySplit sep xs with
    | nil => exact absurd hps (pySplit_ne_nil sep xs)
    | cons ph pt =>
      by_cases hx : x = sep
      · simp [hx]
      · have hmem : sep ∈ xs := by
          rcases List.mem_cons.mp h with h1 | h1
          · exact absurd h1.symm hx
          · exact h1
        have := ih hmem
        rw [hps] at this
        simp only [if_neg hx, List.length_cons] at *
        omega

lemma lastOf_cons_of_ne_nil (a : List Char) (t : List (List Char))
    (h : t ≠ []) : lastOf (a :: t) = lastOf t := by
  cases t with
  | nil => exact absurd rfl h
  | cons b u => rfl

lemma lastOf_pySplit (sep : Char) (s : List Char) :
    lastOf (pySplit sep s) = lastSegment sep s := by
  induction s with
  | nil => rfl
  | cons x xs ih =>
    by_cases hmem : sep ∈ xs
    · have h2 : 2 ≤ (pySplit sep xs).length := two_le_pySplit_length sep xs hmem
      cases hps : pySplit sep xs with
      | nil => exact absurd hps (pySplit_ne_nil sep xs)
      | cons ph pt =>
        rw [hps] at h2 ih
        have hpt : pt ≠ [] := by
          intro hc; subst hc; simp at h2
        simp only [pySplit, hps, lastSegment, if_pos hmem]
        by_cases hx : x = sep
        · rw [if_pos hx, ← ih]
          rfl
        · rw [if_neg hx, ← ih]
          rw [lastOf_cons_of_ne_nil (x :: ph) pt hpt,
            lastOf_cons_of_ne_nil ph pt hpt]
    · have hxs := pySplit_of_not_mem sep xs hmem
      simp only [pySplit, hxs, lastSegment, if_neg hmem]
      by_cases hx : x = sep
      · rw [if_pos hx, if_pos hx]
        rfl
      · rw [if_neg hx, if_neg hx]
        rfl

lemma lastSegment_of_not_mem (sep : Char) (s : List Char) (h : sep ∉ s) :
    lastSegment sep s = s := by
  cases s with
  | nil => rfl
  | cons x xs =>
    simp only [List.mem_cons, not_or] at h
    simp [lastSegment, h.2, Ne.symm h.1]

lemma replaceAllAux_of_not_infix (p : Char) (ps rep : List Char) :
    ∀ (n : Nat) (s : List Char), s.length ≤ n → ¬ ((p :: ps) <:+: s) →
      replaceAllAux p ps rep s = s := by
  intro n
  induction n with
  | zero =>
    intro s hlen _
    have : s = [] := List.length_eq_zero.mp (Nat.le_zero.mp hlen)
    subst this; simp [replaceAllAux]
  | succ n ih =>
    intro s hlen hinf
    match s with
    | [] => simp [replaceAllAux]
    | x :: xs =>
      have hpre : ¬ (p :: ps).isPrefixOf (x :: xs) := by
        intro hc
        exact hinf (List.isPrefixOf_iff_prefix.mp hc).isInfix
      have hxs : ¬ ((p :: ps) <:+: xs) := fun hc => hinf (List.infix_cons hc)
      simp only [replaceAllAux, if_neg hpre]
      rw [ih xs (by simp at hlen; omega) hxs]

lemma replaceAll_of_not_infix (pat rep s : List Char) (hne : pat ≠ [])
    (h : ¬ (pat <:+: s)) : replaceAll pat rep s = s := by
  match pat, hne with
  | p :: ps, _ =>
    exact replaceAllAux_of_not_infix p ps rep s.length s le_rfl h

/-! ## Claim theorems -/

/-- Claim C1, counterexample.  The claim says an `Acquire` attempted when
the stored slot count is `0` is rejected with `AdmissionDenied` without
mutating the stored count, and that the count never goes negative.  In the
code `check_worker_count` raises only when the count is `< 0`, so at count
`0` the acquire succeeds and stores `-1`: the count is mutated to a
negative value and no rejection happens. -/
theorem claim1_counterexample :
    acquire 0 = Except.ok (-1) ∧ runSlotOps 0 [SlotOp.acquireOp] = -1 ∧
      runSlotOps 0 [SlotOp.acquireOp] < 0 :=
  ⟨rfl, rfl, by decide⟩

/-- Claim C1, amended.  For every sequence of Acquire/Release operations
starting from a non-negative stored count, the count never goes below
`-1`; an Acquire attempted when the count is negative is rejected with the
`RunnerException` (admission denied) without mutating the stored count.
(An Acquire at count `0` succeeds and leaves `-1`, as the counterexample
shows.) -/
theorem claim1_amended (ops : List SlotOp) (c : Int) (h : 0 ≤ c) :
    -1 ≤ runSlotOps c ops ∧
    ∀ d : Int, d < 0 →
      acquire d = Except.error RunnerError.admissionDenied ∧
      slotStep d SlotOp.acquireOp = d := by
  refine ⟨runSlotOps_ge ops c (by omega), fun d hd => ?_⟩
  constructor <;>
    simp [acquire, slotStep, check_worker_count, hd]

/-- Witness for the amended claim C1 at concrete inputs. -/
theorem claim1_amended_witness :
    -1 ≤ runSlotOps 0 [SlotOp.acquireOp, SlotOp.acquireOp, SlotOp.releaseOp] ∧
    acquire (-2) = Except.error RunnerError.admissionDenied ∧
    slotStep (-2) SlotOp.acquireOp = -2 :=
  ⟨(claim1_amended [SlotOp.acquireOp, SlotOp.acquireOp, SlotOp.releaseOp] 0
      (by decide)).1,
   (claim1_amended [] 0 (by decide)).2 (-2) (by decide)⟩

/-- Claim C9, confirmed.  `create_task_environment` checks the stored
count beforehand (rejecting a negative count), and on a successful setup
increments the stored count by exactly one — it never decrements it. -/
theorem claim9_create_env_increments (c c2 : Int) (ok : Bool)
    (h : create_task_environment c ok = Except.ok c2) :
    c2 = c + 1 ∧ 0 ≤ c := by
  unfold create_task_environment check_worker_count at h
  by_cases hc : c < 0
  · simp [hc] at h
  · cases ok <;> simp [hc, increment_worker_count] at h
    exact ⟨h.symm, by omega⟩

/-- Witness for claim C9 at a concrete input. -/
theorem claim9_create_env_increments_witness : (4 : Int) = 3 + 1 ∧ (0 : Int) ≤ 3 :=
  claim9_create_env_increments 3 4 true rfl

/-- Claim C4, counterexample.  Path translation is Python's
`str.replace`, which substitutes every occurrence, not "the host-root
prefix exactly once", and it is not idempotent: with host root `"ab"` and
context root `"a"`, translating `"abb"` gives `"ab"`, and translating the
result again gives `"a"`.  With replacement `"x"`, the path `"abab"`
(whose host-root prefix is `"ab"`) has both occurrences replaced, where a
replace-the-prefix-once function would give `"xab"`. -/
theorem claim4_counterexample :
    change2_local_dir "ab".toList "a".toList "abb".toList = "ab".toList ∧
    change2_local_dir "ab".toList "a".toList
        (change2_local_dir "ab".toList "a".toList "abb".toList) = "a".toList ∧
    "a".toList ≠ "ab".toList ∧
    change2_local_dir "ab".toList "x".toList "abab".toList = "xx".toList ∧
    "xx".toList ≠ "xab".toList := by
  refine ⟨?_, ?_, by decide, ?_, by decide⟩ <;>
    simp [change2_local_dir, replaceAll, replaceAllAux]

/-- Claim C4, amended.  `change2_local_dir` replaces every non-overlapping
occurrence of the host-root string (so a path without an occurrence is
unchanged), and translation is idempotent exactly when the host root no
longer occurs in the translated path — which the configuration must
guarantee, since it can fail (see the counterexample). -/
theorem claim4_amended (server results p : List Char) (hne : server ≠ []) :
    (¬ (server <:+: p) → change2_local_dir server results p = p) ∧
    (¬ (server <:+: change2_local_dir server results p) →
      change2_local_dir server results (change2_local_dir server results p) =
        change2_local_dir server results p) :=
  ⟨fun h => replaceAll_of_not_infix server results p hne h,
   fun h => replaceAll_of_not_infix server results _ hne h⟩

/-- Witness for the amended claim C4 at concrete inputs. -/
theorem claim4_amended_witness :
    change2_local_dir "ab".toList "x".toList "cd".toList = "cd".toList ∧
    change2_local_dir "ab".toList "x".toList
        (change2_local_dir "ab".toList "x".toList "cab".toList) =
      change2_local_dir "ab".toList "x".toList "cab".toList :=
  ⟨(claim4_amended "ab".toList "x".toList "cd".toList (by decide)).1 (by decide),
   (claim4_amended "ab".toList "x".toList "cab".toList (by decide)).2
     (by simp [change2_local_dir, replaceAll, replaceAllAux]; decide)⟩

lemma mem_rm_rf (p q : List Char) (fs : List (List Char)) :
    q ∈ rm_rf p fs ↔ q ∈ fs ∧ ¬ (q = p ∨ (p ++ ['/']) <+: q) := by
  simp only [rm_rf, List.mem_filter, Bool.not_eq_true', Bool.or_eq_false_iff,
    beq_eq_false_iff_ne, ne_eq]
  constructor
  · rintro ⟨h1, h2, h3⟩
    exact ⟨h1, by
      rintro (rfl | hpre)
      · exact h2 rfl
      · rw [← List.isPrefixOf_iff_prefix] at hpre
        simp [hpre] at h3⟩
  · rintro ⟨h1, h2⟩
    push_neg at h2
    refine ⟨h1, h2.1, ?_⟩
    rw [Bool.eq_false_iff]
    intro hc
    exact h2.2 (List.isPrefixOf_iff_prefix.mp hc)

lemma not_mem_rm_rf_self (p : List Char) (fs : List (List Char)) :
    p ∉ rm_rf p fs := by
  rw [mem_rm_rf]
  rintro ⟨_, h⟩
  exact h (Or.inl rfl)

lemma not_mem_rm_rf_below (p q : List Char) (fs : List (List Char))
    (h : (p ++ ['/']) <+: q) : q ∉ rm_rf p fs := by
  rw [mem_rm_rf]
  rintro ⟨_, hc⟩
  exact hc (Or.inr h)

lemma rm_rf_subset (p q : List Char) (fs : List (List Char))
    (h : q ∈ rm_rf p fs) : q ∈ fs := ((mem_rm_rf p q fs).mp h).1

lemma base_ne_sub (base nm : List Char) : base ≠ base ++ '/' :: nm := by
  intro hc
  have := congrArg List.length hc
  simp at this

lemma sub_not_prefixed (base nm : List Char) :
    ¬ ((base ++ '/' :: nm ++ ['/']) <+: base) := by
  intro hc
  have := hc.length_le
  simp at this

/-- Membership in the tree left by `remove`. -/
lemma mem_remove (root j d m q : List Char) (fs : List (List Char)) :
    q ∈ remove root j d m fs ↔
      (q = root ++ '/' :: j ∨ q = root ++ '/' :: j ++ '/' :: d ∨
        q = root ++ '/' :: j ++ '/' :: m ∨ q ∈ fs) ∧
      ¬ (q = root ++ '/' :: j ++ '/' :: d ∨
          ((root ++ '/' :: j ++ '/' :: d) ++ ['/']) <+: q) ∧
      ¬ (q = root ++ '/' :: j ++ '/' :: m ∨
          ((root ++ '/' :: j ++ '/' :: m) ++ ['/']) <+: q) := by
  simp only [remove, job_get_dirs, mkdirsFor, mem_rm_rf, List.mem_cons]
  tauto

/-- After `remove`, the dataset and model directories are gone, everything
below them is gone, and the base directory is present. -/
lemma remove_facts (root j d m : List Char) (fs : List (List Char)) :
    (root ++ '/' :: j ++ '/' :: d) ∉ remove root j d m fs ∧
    (root ++ '/' :: j ++ '/' :: m) ∉ remove root j d m fs ∧
    (root ++ '/' :: j) ∈ remove root j d m fs ∧
    ∀ q, ((root ++ '/' :: j ++ '/' :: d) ++ ['/']) <+: q →
      q ∉ remove root j d m fs := by
  refine ⟨?_, ?_, ?_, ?_⟩
  · rw [mem_remove]; tauto
  · rw [mem_remove]; tauto
  · rw [mem_remove]
    refine ⟨Or.inl rfl, ?_, ?_⟩
    · rintro (hc | hc)
      · exact base_ne_sub (root ++ '/' :: j) d (by simpa using hc)
      · exact sub_not_prefixed (root ++ '/' :: j) d (by simpa using hc)
    · rintro (hc | hc)
      · exact base_ne_sub (root ++ '/' :: j) m (by simpa using hc)
      · exact sub_not_prefixed (root ++ '/' :: j) m (by simpa using hc)
  · intro q hq
    rw [mem_remove]
    tauto

/-- Claim C8, counterexample.  The claim (and the data model in the
specification) says `Remove` deletes the job's directories — base, dataset
and model.  Starting from an empty tree, `remove` leaves the base
directory in place (it is even created by the `job_get_dirs` call inside
`remove`): the result is exactly `[base_dir]`, not `[]`. -/
theorem claim8_counterexample :
    remove "/res".toList "j".toList "d".toList "m".toList [] =
      ["/res/j".toList] ∧
    "/res/j".toList ∈ remove "/res".toList "j".toList "d".toList "m".toList [] := by
  constructor <;> decide

/-- Claim C8, amended.  `remove` deletes the dataset and model directories
(and everything below them) but not the job's base directory, which it
leaves — and even re-creates — in place; it is idempotent: a second call
returns success (the Python function always returns `True`) and leaves
exactly the same tree. -/
theorem claim8_amended (root j d m : List Char) (fs : List (List Char)) :
    (root ++ '/' :: j ++ '/' :: d) ∉ remove root j d m fs ∧
    (root ++ '/' :: j ++ '/' :: m) ∉ remove root j d m fs ∧
    (root ++ '/' :: j) ∈ remove root j d m fs ∧
    ∀ q, q ∈ remove root j d m (remove root j d m fs) ↔ q ∈ remove root j d m fs := by
  obtain ⟨h1, h2, h3, _⟩ := remove_facts root j d m fs
  refine ⟨h1, h2, h3, fun q => ?_⟩
  simp only [mem_remove]
  tauto

/-- Claim C7, counterexample.  The claim says a failed `setup` tears down
the job's directories before the error is surfaced.  With the dataset
clone succeeding and the model clone failing, the surfaced error carries a
tree in which the job's base directory is still present (twice, because
`remove` re-runs `job_get_dirs`): the workspace directory itself is not
torn down. -/
theorem claim7_counterexample :
    setup "/res".toList "j".toList "d".toList "m".toList true false [] =
      Except.error ["/res/j".toList, "/res/j".toList] ∧
    "/res/j".toList ∈ ["/res/j".toList, "/res/j".toList] := by
  exact ⟨rfl, by decide⟩

/-- Claim C7, amended.  When `setup` fails while materializing the dataset
or the model, it calls `remove` before surfacing the error, so the error
state contains neither the dataset directory nor the model directory nor
any content below them (no half-populated content survives) — but the
job's base directory itself is still present. -/
theorem claim7_amended (root j d m : List Char) (dsOk mOk : Bool)
    (fs fsE : List (List Char))
    (h : setup root j d m dsOk mOk fs = Except.error fsE) :
    (root ++ '/' :: j ++ '/' :: d) ∉ fsE ∧
    (root ++ '/' :: j ++ '/' :: m) ∉ fsE ∧
    clonedPath (root ++ '/' :: j ++ '/' :: d) ∉ fsE ∧
    (root ++ '/' :: j) ∈ fsE := by
  have hclone : ∀ fs0 : List (List Char),
      clonedPath (root ++ '/' :: j ++ '/' :: d) ∉ remove root j d m fs0 := by
    intro fs0
    refine (remove_facts root j d m fs0).2.2.2 _ ?_
    simp only [clonedPath]
    exact ⟨".git".toList, by simp⟩
  unfold setup at h
  simp only [job_get_dirs] at h
  cases dsOk <;> cases mOk <;> simp at h <;> subst h
  · exact ⟨(remove_facts root j d m _).1, (remove_facts root j d m _).2.1,
      hclone _, (remove_facts root j d m _).2.2.1⟩
  · exact ⟨(remove_facts root j d m _).1, (remove_facts root j d m _).2.1,
      hclone _, (remove_facts root j d m _).2.2.1⟩
  · exact ⟨(remove_facts root j d m _).1, (remove_facts root j d m _).2.1,
      hclone _, (remove_facts root j d m _).2.2.1⟩

/-- Witness for the amended claim C7 at a concrete input. -/
theorem claim7_amended_witness :
    "/res/j/d".toList ∉ ["/res/j".toList, "/res/j".toList] ∧
    "/res/j/m".toList ∉ ["/res/j".toList, "/res/j".toList] ∧
    clonedPath "/res/j/d".toList ∉ ["/res/j".toList, "/res/j".toList] ∧
    "/res/j".toList ∈ ["/res/j".toList, "/res/j".toList] := by
  have h := claim7_amended "/res".toList "j".toList "d".toList "m".toList
    true false [] ["/res/j".toList, "/res/j".toList] rfl
  simpa using h

/-- Claim C5, counterexample.  With `datasetType == upload`, `prepare`
runs `copyfile(dataset_name, results_dir)`: the copy destination is the
caller-supplied `results_dir` argument, not the job's dataset directory
(`/res/j/ds` here), which receives nothing. -/
theorem claim5_counterexample :
    prepare "/res".toList "j".toList "ds".toList "m".toList
        "upload".toList "/tmp/up".toList none none =
      [PrepEffect.copy "ds".toList "/tmp/up".toList,
       PrepEffect.fetch "m".toList "/res/j/m".toList none] ∧
    PrepEffect.copy "ds".toList "/res/j/ds".toList ∉
      prepare "/res".toList "j".toList "ds".toList "m".toList
        "upload".toList "/tmp/up".toList none none := by
  constructor <;> decide

/-- Claim C5, amended.  `prepare` with `datasetType == upload` copies the
caller-supplied source path into the caller-supplied `results_dir`
destination (not into the job's dataset directory); with
`datasetType == default` it re-fetches the dataset into the dataset
directory via the materializer; in both cases it then re-fetches the model
into the model directory. -/
theorem claim5_amended (root j dsName mName dsType rdir : List Char)
    (dsBranch mBranch : Option (List Char)) :
    (dsType = "upload".toList →
      prepare root j dsName mName dsType rdir dsBranch mBranch =
        [PrepEffect.copy dsName rdir,
         PrepEffect.fetch mName (root ++ '/' :: j ++ '/' :: mName) mBranch]) ∧
    (dsType = "default".toList →
      prepare root j dsName mName dsType rdir dsBranch mBranch =
        [PrepEffect.fetch dsName (root ++ '/' :: j ++ '/' :: dsName) dsBranch,
         PrepEffect.fetch mName (root ++ '/' :: j ++ '/' :: mName) mBranch]) := by
  constructor <;> intro h <;> subst h <;> simp [prepare, job_get_dirs]

/-- Witness for the amended claim C5 at concrete inputs. -/
theorem claim5_amended_witness :
    prepare "/res".toList "j".toList "ds".toList "m".toList
        "upload".toList "/tmp/up".toList none none =
      [PrepEffect.copy "ds".toList "/tmp/up".toList,
       PrepEffect.fetch "m".toList ("/res".toList ++ '/' :: "j".toList ++ '/' :: "m".toList) none] ∧
    prepare "/res".toList "j".toList "ds".toList "m".toList
        "default".toList "/tmp/up".toList none none =
      [PrepEffect.fetch "ds".toList ("/res".toList ++ '/' :: "j".toList ++ '/' :: "ds".toList) none,
       PrepEffect.fetch "m".toList ("/res".toList ++ '/' :: "j".toList ++ '/' :: "m".toList) none] :=
  ⟨(claim5_amended "/res".toList "j".toList "ds".toList "m".toList
      "upload".toList "/tmp/up".toList none none).1 rfl,
   (claim5_amended "/res".toList "j".toList "ds".toList "m".toList
      "default".toList "/tmp/up".toList none none).2 rfl⟩

/-- Claim C10, confirmed.  `fetch_results` consults the success document
first: when both result documents exist it returns the success document's
content, and the error document is read only when the success document is
absent (its open raised `FileNotFoundError`). -/
theorem claim10_success_first (s e : List Char × ResultDoc) :
    fetch_results ⟨some s, some e⟩ = some s ∧
    fetch_results ⟨none, some e⟩ = some e :=
  ⟨rfl, rfl⟩

/-- Claim C3, code bug, evaluated at the failing input.  The claim says
that when neither result document exists the harvester produces a `none`
outcome without raising and the caller receives a successful terminal
response rather than an error.  `fetch_results` itself, invoked with its
one parameter, does return `None` without raising — but `run_task`
invokes it with two positional arguments
(`cg.fetch_results(request.job_id, request.model.name)` against
`def fetch_results(at: str)`), so the call raises `TypeError` before the
`results is None` branch can run, and an error — not a successful
response — is surfaced to the caller; the harvest step fails this way for
every state of the result documents. -/
theorem claim3_code_bug :
    fetch_results ⟨none, none⟩ = none ∧
    run_task_harvest ⟨none, none⟩ = Except.error () ∧
    ∀ fs : CtxFs, run_task_harvest fs = Except.error () :=
  ⟨rfl, rfl, fun _ => rfl⟩

/-- Claim C6, confirmed.  When only the error result document exists, the
terminal result built by `run_task` has status `"error"`, an empty
metrics list, the base64-decoded file entries, and the package name (and
task id) taken from the document. -/
theorem claim6_error_document (doc : ResultDoc) (fls : List BytesContent)
    (h : doc.files.mapM (fun kv => mkBytesContent kv.1 kv.2) = some fls) :
    runTaskTerminal (fetch_results ⟨none, some ("error".toList, doc)⟩) =
      Except.ok (some
        { task_id := doc.task_id
          status := "error".toList
          metrics := []
          files := fls
          pkg_name := doc.pkg_name
          pretrained_model := none }) := by
  have hne : ("error".toList : List Char) ≠ "success".toList := by decide
  have h2 : errorResult "error".toList doc = some
      { task_id := doc.task_id
        status := "error".toList
        metrics := []
        files := fls
        pkg_name := doc.pkg_name
        pretrained_model := none } := by
    unfold errorResult
    rw [h]
    rfl
  simp only [runTaskTerminal, fetch_results]
  rw [if_neg hne, h2]

/-- Witness for claim C6: an error document with one base64 file entry. -/
theorem claim6_error_document_witness :
    runTaskTerminal (fetch_results ⟨none, some ("error".toList,
        { task_id := "t1".toList
          metrics := []
          files := [("model.bin".toList, "AQIDBA==".toList)]
          pkg_name := "p".toList
          pretrained_model := none })⟩) =
      Except.ok (some
        { task_id := "t1".toList
          status := "error".toList
          metrics := []
          files := [{ file_size := 8, buffer := [1, 2, 3, 4],
                      info := { name := "model.bin".toList,
                                extension := "bin".toList } }]
          pkg_name := "p".toList
          pretrained_model := none }) :=
  claim6_error_document
    { task_id := "t1".toList
      metrics := []
      files := [("model.bin".toList, "AQIDBA==".toList)]
      pkg_name := "p".toList
      pretrained_model := none }
    [{ file_size := 8, buffer := [1, 2, 3, 4],
       info := { name := "model.bin".toList, extension := "bin".toList } }]
    (by decide)

/-- Claim C2, counterexample.  For the specification's own example file
(`"model.bin"` holding 4 bytes, base64 `"AQIDBA=="`), the code reports
`file_size = len(value) = 8` — the length of the base64 text — while the
decoded content has 4 bytes; and for a dotless filename (`"noext"`) the
reported extension is the whole filename, not "no extension". -/
theorem claim2_counterexample :
    mkBytesContent "model.bin".toList "AQIDBA==".toList = some
      { file_size := 8
        buffer := [1, 2, 3, 4]
        info := { name := "model.bin".toList, extension := "bin".toList } } ∧
    (8 : Nat) ≠ ([1, 2, 3, 4] : List Nat).length ∧
    mkBytesContent "noext".toList "AQIDBA==".toList = some
      { file_size := 8
        buffer := [1, 2, 3, 4]
        info := { name := "noext".toList, extension := "noext".toList } } ∧
    "noext".toList ≠ ([] : List Char) := by
  refine ⟨by decide, by decide, by decide, by decide⟩

/-- Claim C2, amended.  For every file entry built from a filename and the
base64 encoding of its bytes, the reported size equals the length of the
base64-encoded string — `4 * ⌈n/3⌉` for `n` decoded bytes, not `n` — the
buffer holds the decoded bytes, and the reported extension is the
substring after the final `.` of the filename, which is the whole filename
(not "no extension") when the filename contains no `.`. -/
theorem claim2_amended (key : List Char) (bs : List Nat)
    (h : ∀ b ∈ bs, b < 256) :
    mkBytesContent key (b64encode bs) = some
      { file_size := 4 * ((bs.length + 2) / 3)
        buffer := bs
        info := { name := key, extension := lastSegment '.' key } } ∧
    ('.' ∉ key → lastSegment '.' key = key) := by
  refine ⟨?_, fun hnm => lastSegment_of_not_mem '.' key hnm⟩
  simp [mkBytesContent, b64_roundtrip bs h, b64encode_length, lastOf_pySplit]

/-- Witness for the amended claim C2 at the specification's example. -/
theorem claim2_amended_witness :
    mkBytesContent "model.bin".toList (b64encode [1, 2, 3, 4]) = some
      { file_size := 4 * ((([1, 2, 3, 4] : List Nat).length + 2) / 3)
        buffer := [1, 2, 3, 4]
        info := { name := "model.bin".toList
                  extension := lastSegment '.' "model.bin".toList } } ∧
    ('.' ∉ "model.bin".toList →
      lastSegment '.' "model.bin".toList = "model.bin".toList) :=
  claim2_amended "model.bin".toList [1, 2, 3, 4] (by decide)

end Runner
